import Mathlib

/-!
Shallow embedding of the ChatPineWriter RAG core:
* `PineconeService` (in-memory vector index: `upsert`, `query`, `cosineSimilarity`),
* the prompt construction inside `generateChatResponse`,
* the `POST /api/query` route pipeline from `registerRoutes`.

JavaScript `number` arithmetic is idealized as exact real arithmetic (`ℝ`);
`Map` iteration order is modelled as insertion order (a JS `Map` guarantee);
the stable `Array.prototype.sort` is modelled by `List.insertionSort`, which is
stable for the comparator used here; `throw` is modelled with `Except`.
-/

namespace ChatPineWriter

/-- The stored value of one index entry: the embedding plus the metadata fields
that `PineconeService.query` reads (`content`, `category`, `createdAt`).
A missing key of the JS metadata object is `none`. -/
structure VectorEntry where
  embedding : List ℝ
  content : Option String
  category : Option String
  createdAt : Option String

/-- `SimilaritySearchResult` as returned by `PineconeService.query`. -/
structure SimilaritySearchResult where
  id : String
  score : ℝ
  text : String
  category : String
  timestamp : String

/-- The `vectors : Map<string, …>` field of `PineconeService`, in insertion order. -/
abbrev IndexState := List (String × VectorEntry)

/-- JS `x || d` for a possibly missing string `x`: `undefined` and `""` are falsy. -/
def jsStringOr (x : Option String) (d : String) : String :=
  match x with
  | none => d
  | some s => if s = "" then d else s

/-- `PineconeService.upsert`: JS `Map.set` replaces the value of an existing key
in place (keeping its insertion position) and appends a new key at the end. -/
def upsert (st : IndexState) (id : String) (e : VectorEntry) : IndexState :=
  if st.any (fun p => p.1 == id) then
    st.map (fun p => if p.1 == id then (id, e) else p)
  else
    st ++ [(id, e)]

/-- `normA` (before `Math.sqrt`): the sum of squares accumulated by the loop. -/
def sumSq (a : List ℝ) : ℝ := (a.map (fun x => x * x)).sum

/-- `dotProduct` accumulated by the loop (for equal-length vectors). -/
def dotProduct (a b : List ℝ) : ℝ := ((a.zip b).map (fun p => p.1 * p.2)).sum

noncomputable section

/-- The value computed by `PineconeService.cosineSimilarity` after the length
guard: `0` if either norm is `0`, else `dot / (normA * normB)`. -/
def cosValue (a b : List ℝ) : ℝ :=
  if Real.sqrt (sumSq a) = 0 ∨ Real.sqrt (sumSq b) = 0 then 0
  else dotProduct a b / (Real.sqrt (sumSq a) * Real.sqrt (sumSq b))

/-- `PineconeService.cosineSimilarity`, including the
`throw new Error("Vectors must have the same length")` guard. -/
def cosineSimilarity (a b : List ℝ) : Except String ℝ :=
  if a.length ≠ b.length then .error "Vectors must have the same length"
  else .ok (cosValue a b)

/-- One entry of the `results` array built by the loop in `query`. -/
structure ScoredEntry where
  id : String
  score : ℝ
  entry : VectorEntry

/-- The comparator `(a, b) => b.score - a.score` as an ordering relation:
`a` may precede `b` iff `b.score ≤ a.score`. -/
def scoreGE (a b : ScoredEntry) : Prop := b.score ≤ a.score

instance : DecidableRel scoreGE :=
  fun a b => inferInstanceAs (Decidable (b.score ≤ a.score))

instance : IsTotal ScoredEntry scoreGE :=
  ⟨fun a b => le_total b.score a.score⟩

instance : IsTrans ScoredEntry scoreGE :=
  ⟨fun _ _ _ h₁ h₂ => le_trans h₂ h₁⟩

/-- The scoring loop of `query`: pair every stored entry with its cosine
similarity to `v`, in insertion order; a thrown dimension error aborts. -/
def scoreEntries (v : List ℝ) : IndexState → Except String (List ScoredEntry)
  | [] => .ok []
  | (id, e) :: rest =>
    match cosineSimilarity v e.embedding, scoreEntries v rest with
    | .error msg, _ => .error msg
    | .ok _, .error msg => .error msg
    | .ok s, .ok tail => .ok (⟨id, s, e⟩ :: tail)

/-- The `topResults.map(...)` projection at the end of `query`; `now` stands for
`new Date().toISOString()`. -/
def toResult (now : String) (r : ScoredEntry) : SimilaritySearchResult :=
  { id := r.id
    score := r.score
    text := jsStringOr r.entry.content ""
    category := jsStringOr r.entry.category "unknown"
    timestamp := jsStringOr r.entry.createdAt now }

/-- `PineconeService.query(embedding, topK, threshold)`: score every entry,
keep scores `≥ threshold`, sort descending (stably), take `topK`, project. -/
def query (st : IndexState) (v : List ℝ) (topK : ℕ) (threshold : ℝ)
    (now : String) : Except String (List SimilaritySearchResult) :=
  match scoreEntries v st with
  | .error msg => .error msg
  | .ok results =>
    .ok (((List.insertionSort scoreGE
        (results.filter (fun r => decide (threshold ≤ r.score)))).take topK).map
      (toResult now))

/-- `query` with the TypeScript default parameters `topK = 5`, `threshold = 0.7`. -/
def queryWithDefaults (st : IndexState) (v : List ℝ) (now : String) :
    Except String (List SimilaritySearchResult) :=
  query st v 5 (7 / 10) now

/-- The string `"Context from knowledge base"` used to label the context block. -/
def contextMarker : String := "Context from knowledge base"

/-- The fixed prompt text placed before the user's question. -/
def userQuestionLabel : String := "User question: "

/-- The fixed instruction appended after the question in `generateChatResponse`. -/
def groundingInstruction : String :=
  "\n\nPlease provide a comprehensive answer based on the provided context. If context is provided, reference it in your response. If no relevant context is available, provide a helpful general answer."

/-- `contextText` from `generateChatResponse`: the labeled context block, or `""`
when there are no context snippets. -/
def contextText (context : List String) : String :=
  if 0 < context.length then
    "Context from knowledge base:\n" ++ String.intercalate "\n\n" context ++ "\n\n"
  else ""

/-- The `prompt` template literal of `generateChatResponse`. -/
def assemblePrompt (queryText : String) (context : List String) : String :=
  contextText context ++ userQuestionLabel ++ queryText ++ groundingInstruction

/-- The result object of `generateChatResponse`. -/
structure ChatResponse where
  response : String
  tokensUsed : ℕ
  model : String

/-- `generateChatResponse(query, context, model)`, with the OpenAI chat call
abstracted as `llm : prompt ↦ (text, totalTokens)`. -/
def generateChatResponse (llm : String → String × ℕ) (queryText : String)
    (context : List String) (model : String) : ChatResponse :=
  { response := (llm (assemblePrompt queryText context)).1
    tokensUsed := (llm (assemblePrompt queryText context)).2
    model := model }

/-- The `chatResponse` part of the `POST /api/query` JSON reply, together with
the search results it was computed from. -/
structure QueryRouteResponse where
  searchResults : List SimilaritySearchResult
  response : String
  tokensUsed : ℕ
  model : String
  contextCount : ℕ
  avgSimilarity : ℝ

/-- The `POST /api/query` pipeline of `registerRoutes` (persistence and logging
omitted): embed the query, apply the route defaults
`parseInt(req.body.topK || "5")`, `parseFloat(req.body.threshold || "0.7")` and
`req.body.chatModel || "gpt-4o"`, search the index, generate, and assemble the
reply with `contextCount` and `avgSimilarity`.  An absent request field is
`none`.  There is no validation step. -/
def processQuery (embed : String → List ℝ) (llm : String → String × ℕ)
    (st : IndexState) (queryText : String) (topKParam : Option ℕ)
    (thresholdParam : Option ℝ) (chatModelParam : Option String)
    (now : String) : Except String QueryRouteResponse :=
  let emb := embed queryText
  let topK := topKParam.getD 5
  let threshold := thresholdParam.getD (7 / 10)
  match query st emb topK threshold now with
  | .error msg => .error msg
  | .ok searchResults =>
    let chatModel := chatModelParam.getD "gpt-4o"
    let chat := generateChatResponse llm queryText
      (searchResults.map (fun r => r.text)) chatModel
    .ok { searchResults := searchResults
          response := chat.response
          tokensUsed := chat.tokensUsed
          model := chat.model
          contextCount := searchResults.length
          avgSimilarity :=
            if 0 < searchResults.length then
              ((searchResults.map (fun r => r.score)).sum : ℝ) /
                (searchResults.length : ℝ)
            else 0 }

/-- The scored entry produced for one stored pair when no dimension error occurs. -/
def scoreOf (v : List ℝ) (p : String × VectorEntry) : ScoredEntry :=
  ⟨p.1, cosValue v p.2.embedding, p.2⟩

end

theorem cosineSimilarity_eq_ok {a b : List ℝ} (h : a.length = b.length) :
    cosineSimilarity a b = .ok (cosValue a b) := by
  simp [cosineSimilarity, h]

theorem scoreEntries_eq_map {v : List ℝ} {st : IndexState}
    (h : ∀ p ∈ st, p.2.embedding.length = v.length) :
    scoreEntries v st = .ok (st.map (scoreOf v)) := by
  induction st with
  | nil => rfl
  | cons p rest ih =>
    obtain ⟨id, e⟩ := p
    have hlen : v.length = e.embedding.length :=
      (h (id, e) (List.mem_cons_self _ _)).symm
    have hrest : scoreEntries v rest = .ok (rest.map (scoreOf v)) :=
      ih fun q hq => h q (List.mem_cons_of_mem _ hq)
    simp [scoreEntries, cosineSimilarity_eq_ok hlen, hrest, scoreOf]

theorem scoreEntries_eq_error {v : List ℝ} {st : IndexState}
    (h : ∃ p ∈ st, p.2.embedding.length ≠ v.length) :
    scoreEntries v st = .error "Vectors must have the same length" := by
  induction st with
  | nil => simp at h
  | cons p rest ih =>
    obtain ⟨id, e⟩ := p
    by_cases hhead : e.embedding.length = v.length
    · have hrest : ∃ q ∈ rest, q.2.embedding.length ≠ v.length := by
        obtain ⟨q, hq, hqn⟩ := h
        rcases List.mem_cons.mp hq with hq | hq
        · exact absurd (hq ▸ hhead) hqn
        · exact ⟨q, hq, hqn⟩
      simp [scoreEntries, cosineSimilarity_eq_ok hhead.symm, ih hrest]
    · have : cosineSimilarity v e.embedding =
          .error "Vectors must have the same length" := by
        simp [cosineSimilarity]
        exact fun hc => absurd hc.symm hhead
      simp [scoreEntries, this]

theorem query_ok_of_dims {st : IndexState} {v : List ℝ} {k : ℕ} {t : ℝ}
    {now : String} (h : ∀ p ∈ st, p.2.embedding.length = v.length) :
    query st v k t now =
      .ok (((List.insertionSort scoreGE
          ((st.map (scoreOf v)).filter (fun r => decide (t ≤ r.score)))).take k).map
        (toResult now)) := by
  simp [query, scoreEntries_eq_map h]

theorem query_ok_inv {st : IndexState} {v : List ℝ} {k : ℕ} {t : ℝ}
    {now : String} {rs : List SimilaritySearchResult}
    (h : query st v k t now = .ok rs) :
    (∀ p ∈ st, p.2.embedding.length = v.length) ∧
      rs = ((List.insertionSort scoreGE
          ((st.map (scoreOf v)).filter (fun r => decide (t ≤ r.score)))).take k).map
        (toResult now) := by
  by_cases hall : ∀ p ∈ st, p.2.embedding.length = v.length
  · refine ⟨hall, ?_⟩
    rw [query_ok_of_dims hall] at h
    exact (Except.ok.injEq _ _).mp h.symm
  · push_neg at hall
    rw [query] at h
    rw [scoreEntries_eq_error (by simpa using hall)] at h
    simp at h

/-- C3: `query` fails with the dimension-mismatch error exactly when some stored
vector's length differs from the query vector's length, and succeeds exactly
when all stored vectors have the query vector's length. -/
theorem query_dimension_check (st : IndexState) (v : List ℝ) (k : ℕ) (t : ℝ)
    (now : String) :
    (query st v k t now = .error "Vectors must have the same length" ↔
      ∃ p ∈ st, p.2.embedding.length ≠ v.length) ∧
    ((∃ rs, query st v k t now = .ok rs) ↔
      ∀ p ∈ st, p.2.embedding.length = v.length) := by
  by_cases hall : ∀ p ∈ st, p.2.embedding.length = v.length
  · constructor
    · rw [query_ok_of_dims hall]
      simp only [reduceCtorEq, false_iff]
      push_neg
      exact hall
    · exact ⟨fun _ => hall, fun _ => ⟨_, query_ok_of_dims hall⟩⟩
  · have hex : ∃ p ∈ st, p.2.embedding.length ≠ v.length := by
      push_neg at hall
      simpa using hall
    have herr : query st v k t now = .error "Vectors must have the same length" := by
      rw [query, scoreEntries_eq_error hex]
    constructor
    · exact ⟨fun _ => hex, fun _ => herr⟩
    · rw [herr]
      simp only [reduceCtorEq, exists_false, false_iff]
      exact hall

/-- C4: when either vector has Euclidean norm exactly `0` (in particular for an
all-zero vector, also against itself), `cosineSimilarity` returns `0` rather
than dividing by zero. -/
theorem cosineSimilarity_zero_norm_eq_zero (a b : List ℝ)
    (hlen : a.length = b.length)
    (h0 : Real.sqrt (sumSq a) = 0 ∨ Real.sqrt (sumSq b) = 0) :
    cosineSimilarity a b = .ok 0 := by
  rw [cosineSimilarity_eq_ok hlen, cosValue, if_pos h0]

/-- Witness for C4 at the zero vector against itself. -/
theorem cosineSimilarity_zero_norm_eq_zero_witness :
    cosineSimilarity [(0 : ℝ), 0] [(0 : ℝ), 0] = .ok 0 :=
  cosineSimilarity_zero_norm_eq_zero [0, 0] [0, 0] rfl
    (Or.inl (by
      have h : sumSq [(0 : ℝ), 0] = 0 := by norm_num [sumSq]
      rw [h, Real.sqrt_zero]))

/-- C1: every successful `query` result is sorted by non-increasing score, has
at most `topK` elements, and contains no score strictly below `threshold`. -/
theorem query_sorted_le_topK_threshold (st : IndexState) (v : List ℝ) (k : ℕ)
    (t : ℝ) (now : String) (rs : List SimilaritySearchResult)
    (h : query st v k t now = .ok rs) :
    rs.Pairwise (fun r₁ r₂ => r₂.score ≤ r₁.score) ∧
      rs.length ≤ k ∧ ∀ r ∈ rs, t ≤ r.score := by
  obtain ⟨-, hrs⟩ := query_ok_inv h
  subst hrs
  set fl := (st.map (scoreOf v)).filter (fun r => decide (t ≤ r.score)) with hfl
  refine ⟨?_, ?_, ?_⟩
  · have hsorted : List.Sorted scoreGE (List.insertionSort scoreGE fl) :=
      List.sorted_insertionSort scoreGE fl
    have htake : ((List.insertionSort scoreGE fl).take k).Pairwise scoreGE :=
      List.Pairwise.sublist (List.take_sublist k _) hsorted
    exact List.pairwise_map.mpr htake
  · simp
  · intro r hr
    obtain ⟨x, hx, hxe⟩ := List.mem_map.mp hr
    have hx₂ : x ∈ List.insertionSort scoreGE fl :=
      (List.take_sublist k _).subset hx
    have hx₃ : x ∈ fl := (List.perm_insertionSort scoreGE fl).subset hx₂
    have := (List.mem_filter.mp hx₃).2
    have hts : t ≤ x.score := of_decide_eq_true this
    rw [← hxe]
    exact hts

/-- Witness for C1 on the empty index. -/
theorem query_sorted_le_topK_threshold_witness :
    ([] : List SimilaritySearchResult).Pairwise (fun r₁ r₂ => r₂.score ≤ r₁.score) ∧
      ([] : List SimilaritySearchResult).length ≤ 5 ∧
      ∀ r ∈ ([] : List SimilaritySearchResult), (0 : ℝ) ≤ r.score :=
  query_sorted_le_topK_threshold [] [1] 5 0 "T" [] rfl

/-- C9: an omitted `topK`, `threshold` or `chatModel` request field is
equivalent to passing `5`, `0.7` and `"gpt-4o"` explicitly, and the index
`query` default parameters are `topK = 5`, `threshold = 0.7`. -/
theorem query_pipeline_defaults (embed : String → List ℝ)
    (llm : String → String × ℕ) (st : IndexState) (qt now : String)
    (st₂ : IndexState) (v₂ : List ℝ) (now₂ : String) :
    processQuery embed llm st qt none none none now =
      processQuery embed llm st qt (some 5) (some (7 / 10)) (some "gpt-4o") now ∧
    queryWithDefaults st₂ v₂ now₂ = query st₂ v₂ 5 (7 / 10) now₂ :=
  ⟨rfl, rfl⟩

/-- C8: in every successful pipeline reply, `avgSimilarity` is `0` when nothing
was retrieved and the arithmetic mean of the retrieved scores otherwise, and
`contextCount` is the number of retrieved results. -/
theorem processQuery_avgSimilarity_contextCount (embed : String → List ℝ)
    (llm : String → String × ℕ) (st : IndexState) (qt : String)
    (tk : Option ℕ) (th : Option ℝ) (cm : Option String) (now : String)
    (r : QueryRouteResponse)
    (h : processQuery embed llm st qt tk th cm now = .ok r) :
    (r.searchResults = [] → r.avgSimilarity = 0) ∧
    (r.searchResults ≠ [] →
      r.avgSimilarity =
        (r.searchResults.map (fun s => s.score)).sum / (r.searchResults.length : ℝ)) ∧
    r.contextCount = r.searchResults.length := by
  simp only [processQuery] at h
  rcases hq : query st (embed qt) (tk.getD 5) (th.getD (7 / 10)) now with msg | sr
  · rw [hq] at h
    simp at h
  · rw [hq] at h
    simp only [Except.ok.injEq] at h
    subst h
    refine ⟨fun he => ?_, fun hne => ?_, rfl⟩
    · simp only at he ⊢
      rw [if_neg]
      simp [he]
    · simp only at hne ⊢
      rw [if_pos]
      exact List.length_pos.mpr hne

/-- Concrete pipeline run on the empty index, used by the C8 witness. -/
def c8Reply : QueryRouteResponse :=
  { searchResults := []
    response := assemblePrompt "hi" []
    tokensUsed := 3
    model := "gpt-4o"
    contextCount := 0
    avgSimilarity := 0 }

theorem c8Reply_eq :
    processQuery (fun _ => [1]) (fun p => (p, 3)) [] "hi" none none none "T" =
      .ok c8Reply := rfl

/-- Witness for C8 on the empty index. -/
theorem processQuery_avgSimilarity_contextCount_witness :
    (c8Reply.searchResults = [] → c8Reply.avgSimilarity = 0) ∧
    (c8Reply.searchResults ≠ [] →
      c8Reply.avgSimilarity =
        (c8Reply.searchResults.map (fun s => s.score)).sum /
          (c8Reply.searchResults.length : ℝ)) ∧
    c8Reply.contextCount = c8Reply.searchResults.length :=
  processQuery_avgSimilarity_contextCount (fun _ => [1]) (fun p => (p, 3)) []
    "hi" none none none "T" c8Reply c8Reply_eq

/-- Embedding provider used in the C5 refutation: always returns `[1]`. -/
def c5Embed : String → List ℝ := fun _ => [1]

/-- Generation provider used in the C5 refutation: echoes its prompt and
reports `7` tokens, so its output is visible in the pipeline reply. -/
def c5Llm : String → String × ℕ := fun p => (p, 7)

/-- C5 counterexample: a request with `topK = 0 ≤ 0` and
`scoreThreshold = 2 ∉ [-1, 1]` is not rejected: the pipeline succeeds and the
generation provider's output (the echoed prompt) appears in the reply, so both
providers were called and no `InvalidRequest` error exists. -/
theorem processQuery_invalid_not_rejected_cex :
    processQuery c5Embed c5Llm [] "hello" (some 0) (some 2) none "T" =
      .ok { searchResults := []
            response := assemblePrompt "hello" []
            tokensUsed := 7
            model := "gpt-4o"
            contextCount := 0
            avgSimilarity := 0 } := rfl

/-- C5 as amended: the pipeline performs no request validation at all: for any
`topK` and `threshold` values (in particular `topK = 0` or a threshold outside
`[-1, 1]`), as long as the stored vectors match the embedding dimension, the
pipeline returns a successful reply whose response text is the generation
provider's output on the assembled prompt. -/
theorem processQuery_no_request_validation (embed : String → List ℝ)
    (llm : String → String × ℕ) (st : IndexState) (qt : String) (k : ℕ) (t : ℝ)
    (cm : Option String) (now : String)
    (hdims : ∀ p ∈ st, p.2.embedding.length = (embed qt).length) :
    ∃ r, processQuery embed llm st qt (some k) (some t) cm now = .ok r ∧
      r.response = (llm (assemblePrompt qt (r.searchResults.map (fun s => s.text)))).1 := by
  unfold processQuery
  simp only [Option.getD_some]
  rw [query_ok_of_dims hdims]
  exact ⟨_, rfl, rfl⟩

/-- Witness for the amended C5 with `topK = 0` and `threshold = 2`. -/
theorem processQuery_no_request_validation_witness :
    ∃ r, processQuery c5Embed c5Llm [] "hello" (some 0) (some 2) none "T" = .ok r ∧
      r.response = (c5Llm (assemblePrompt "hello" (r.searchResults.map (fun s => s.text)))).1 :=
  processQuery_no_request_validation c5Embed c5Llm [] "hello" 0 2 none "T"
    (by simp)

theorem sumSq_nonneg (a : List ℝ) : 0 ≤ sumSq a := by
  apply List.sum_nonneg
  intro x hx
  obtain ⟨y, -, rfl⟩ := List.mem_map.mp hx
  exact mul_self_nonneg y

theorem dotProduct_self (a : List ℝ) : dotProduct a a = sumSq a := by
  induction a with
  | nil => rfl
  | cons x t ih =>
    simp only [dotProduct, sumSq, List.zip_cons_cons, List.map_cons,
      List.sum_cons] at ih ⊢
    rw [ih]

theorem cosValue_self {v : List ℝ} (h : sumSq v ≠ 0) : cosValue v v = 1 := by
  have hpos : 0 < sumSq v := lt_of_le_of_ne (sumSq_nonneg v) (Ne.symm h)
  have hsqrt : Real.sqrt (sumSq v) ≠ 0 := ne_of_gt (Real.sqrt_pos.mpr hpos)
  rw [cosValue, if_neg (by push_neg; exact ⟨hsqrt, hsqrt⟩), dotProduct_self,
    Real.mul_self_sqrt (sumSq_nonneg v)]
  exact div_self h

/-- Evaluates `query` on a one-entry index queried with the entry's own vector. -/
theorem query_single_eval (id : String) (e : VectorEntry) (now : String)
    (h0 : sumSq e.embedding ≠ 0) (k : ℕ) (hk : 0 < k) (t : ℝ) (ht : t ≤ 1) :
    query [(id, e)] e.embedding k t now = .ok [toResult now ⟨id, 1, e⟩] := by
  have hs : scoreEntries e.embedding [(id, e)] = .ok [⟨id, 1, e⟩] := by
    rw [scoreEntries_eq_map (by simp)]
    simp [scoreOf, cosValue_self h0]
  have hp : decide (t ≤ (ScoredEntry.mk id 1 e).score) = true :=
    decide_eq_true ht
  unfold query
  rw [hs]
  simp only [List.filter, hp, List.insertionSort, List.orderedInsert]
  obtain ⟨k', rfl⟩ := Nat.exists_eq_add_of_lt hk
  simp [List.take_cons]

/-- C6 counterexample: with an earlier-inserted entry `"a"` of equal score
already present, upserting `"b"` and querying its own vector with
`topK = 1`, `threshold = -1` returns the single result `"a"`, not `"b"`:
the claim fails for non-empty indexes. -/
theorem upsert_query_not_self_cex :
    ¬ ∃ r, query (upsert (upsert [] "a" (VectorEntry.mk [1] none none none))
        "b" (VectorEntry.mk [1] none none none)) [1] 1 (-1) "T" = .ok [r] ∧
      r.id = "b" := by
  have hst : upsert (upsert [] "a" (VectorEntry.mk [1] none none none))
      "b" (VectorEntry.mk [1] none none none) =
      [("a", VectorEntry.mk [1] none none none),
       ("b", VectorEntry.mk [1] none none none)] := rfl
  have h1 : sumSq [(1 : ℝ)] ≠ 0 := by norm_num [sumSq]
  have hcv : cosValue [(1 : ℝ)] [(1 : ℝ)] = 1 := cosValue_self h1
  have hs : scoreEntries [(1 : ℝ)]
      [("a", VectorEntry.mk [1] none none none),
       ("b", VectorEntry.mk [1] none none none)] =
      .ok [⟨"a", 1, VectorEntry.mk [1] none none none⟩,
           ⟨"b", 1, VectorEntry.mk [1] none none none⟩] := by
    rw [scoreEntries_eq_map (by simp)]
    simp [scoreOf, hcv]
  have hq : query (upsert (upsert [] "a" (VectorEntry.mk [1] none none none))
      "b" (VectorEntry.mk [1] none none none)) [1] 1 (-1) "T" =
      .ok [toResult "T" ⟨"a", 1, VectorEntry.mk [1] none none none⟩] := by
    rw [hst]
    unfold query
    rw [hs]
    have hpa : decide ((-1 : ℝ) ≤
        (ScoredEntry.mk "a" 1 (VectorEntry.mk [1] none none none)).score) = true :=
      decide_eq_true (by norm_num)
    have hpb : decide ((-1 : ℝ) ≤
        (ScoredEntry.mk "b" 1 (VectorEntry.mk [1] none none none)).score) = true :=
      decide_eq_true (by norm_num)
    simp only [List.filter, hpa, hpb, List.insertionSort, List.orderedInsert]
    rw [if_pos (by exact le_refl (1 : ℝ))]
    simp [List.take_cons]
  rintro ⟨r, hr, hid⟩
  rw [hq] at hr
  simp only [Except.ok.injEq, List.cons.injEq, and_true] at hr
  rw [← hr] at hid
  simp [toResult] at hid

/-- C6 as amended: starting from the empty index, upserting `(id, v, a)` with a
vector of nonzero norm and querying `v` with `topK = 1`, `threshold = -1`
returns exactly one result, carrying the upserted `id` and score exactly `1`.
(On a non-empty index an earlier-inserted entry of equal score is returned
instead, and for a zero vector the score is `0`, not `1`.) -/
theorem upsert_empty_query_self (id : String) (e : VectorEntry) (now : String)
    (h0 : sumSq e.embedding ≠ 0) :
    query (upsert [] id e) e.embedding 1 (-1) now =
      .ok [toResult now ⟨id, 1, e⟩] := by
  have hst : upsert [] id e = [(id, e)] := rfl
  rw [hst]
  exact query_single_eval id e now h0 1 (by norm_num) (-1) (by norm_num)

/-- Witness for the amended C6. -/
theorem upsert_empty_query_self_witness :
    query (upsert [] "w" (VectorEntry.mk [1] none none none))
        (VectorEntry.mk [1] none none none).embedding 1 (-1) "T" =
      .ok [toResult "T" ⟨"w", 1, VectorEntry.mk [1] none none none⟩] :=
  upsert_empty_query_self "w" (VectorEntry.mk [1] none none none) "T"
    (by norm_num [sumSq])

/-- C10: every returned result arises from a stored entry; a non-truthy stored
`category` yields `"unknown"`, a missing `createdAt` yields the freshly
generated timestamp `now`, and a missing `content` yields the empty text. -/
theorem query_metadata_fallbacks (st : IndexState) (v : List ℝ) (k : ℕ) (t : ℝ)
    (now : String) (rs : List SimilaritySearchResult)
    (h : query st v k t now = .ok rs) (r : SimilaritySearchResult) (hr : r ∈ rs) :
    ∃ p ∈ st, r.id = p.1 ∧
      ((p.2.category = none ∨ p.2.category = some "") → r.category = "unknown") ∧
      (p.2.createdAt = none → r.timestamp = now) ∧
      (p.2.content = none → r.text = "") := by
  obtain ⟨-, hrs⟩ := query_ok_inv h
  subst hrs
  obtain ⟨x, hx, rfl⟩ := List.mem_map.mp hr
  have hx₂ : x ∈ List.insertionSort scoreGE
      ((st.map (scoreOf v)).filter (fun s => decide (t ≤ s.score))) :=
    (List.take_sublist k _).subset hx
  have hx₃ : x ∈ (st.map (scoreOf v)).filter (fun s => decide (t ≤ s.score)) :=
    (List.perm_insertionSort scoreGE _).subset hx₂
  have hx₄ : x ∈ st.map (scoreOf v) := (List.mem_filter.mp hx₃).1
  obtain ⟨p, hp, rfl⟩ := List.mem_map.mp hx₄
  refine ⟨p, hp, rfl, ?_, ?_, ?_⟩
  · rintro (hc | hc) <;> simp [toResult, scoreOf, jsStringOr, hc]
  · intro hc
    simp [toResult, scoreOf, jsStringOr, hc]
  · intro hc
    simp [toResult, scoreOf, jsStringOr, hc]

/-- Witness for C10: an entry with no `content`, `category` or `createdAt`
metadata produces text `""`, category `"unknown"` and timestamp `now`. -/
theorem query_metadata_fallbacks_witness :
    ∃ p ∈ [("x", VectorEntry.mk [1] none none none)],
      (toResult "NOW" ⟨"x", 1, VectorEntry.mk [1] none none none⟩).id = p.1 ∧
      ((p.2.category = none ∨ p.2.category = some "") →
        (toResult "NOW" ⟨"x", 1, VectorEntry.mk [1] none none none⟩).category = "unknown") ∧
      (p.2.createdAt = none →
        (toResult "NOW" ⟨"x", 1, VectorEntry.mk [1] none none none⟩).timestamp = "NOW") ∧
      (p.2.content = none →
        (toResult "NOW" ⟨"x", 1, VectorEntry.mk [1] none none none⟩).text = "") :=
  query_metadata_fallbacks [("x", VectorEntry.mk [1] none none none)] [1] 5 0
    "NOW" [toResult "NOW" ⟨"x", 1, VectorEntry.mk [1] none none none⟩]
    (query_single_eval "x" (VectorEntry.mk [1] none none none) "NOW"
      (by norm_num [sumSq]) 5 (by norm_num) 0 (by norm_num))
    (toResult "NOW" ⟨"x", 1, VectorEntry.mk [1] none none none⟩)
    (List.mem_singleton.mpr rfl)

open List in
theorem pair_sublist_orderedInsert (a y : ScoredEntry) (l : List ScoredEntry)
    (hsorted : List.Sorted scoreGE l) (hy : y ∈ l) (heq : y.score = a.score) :
    [a, y] <+ List.orderedInsert scoreGE a l := by
  induction l with
  | nil => simp at hy
  | cons b t ih =>
    by_cases hab : scoreGE a b
    · simp only [List.orderedInsert, if_pos hab]
      exact List.Sublist.cons₂ a (List.singleton_sublist.mpr hy)
    · have hlt : a.score < b.score := not_le.mp hab
      have hyt : y ∈ t := by
        rcases List.mem_cons.mp hy with rfl | hyt
        · exact absurd (heq ▸ hlt) (lt_irrefl _)
        · exact hyt
      have : [a, y] <+ List.orderedInsert scoreGE a t :=
        ih hsorted.of_cons hyt
      simp only [List.orderedInsert, if_neg hab]
      exact List.Sublist.cons b this

open List in
theorem pair_sublist_insertionSort (x y : ScoredEntry) (l : List ScoredEntry)
    (h : [x, y] <+ l) (heq : x.score = y.score) :
    [x, y] <+ List.insertionSort scoreGE l := by
  induction l with
  | nil => simp at h
  | cons c t ih =>
    simp only [List.insertionSort]
    cases h with
    | cons _ h' =>
      exact (ih h').trans (List.sublist_orderedInsert c _)
    | cons₂ _ h' =>
      exact pair_sublist_orderedInsert x y (List.insertionSort scoreGE t)
        (List.sorted_insertionSort scoreGE t)
        ((List.perm_insertionSort scoreGE t).mem_iff.mpr
          (List.singleton_sublist.mp h'))
        heq.symm

open List in
theorem pair_sublist_take {α : Type} {l : List α} {x y : α} {k : ℕ}
    (hnd : l.Nodup) (hxy : x ≠ y) (h : [x, y] <+ l)
    (hx : x ∈ l.take k) (hy : y ∈ l.take k) : [x, y] <+ l.take k := by
  induction l generalizing k with
  | nil => simp at hx
  | cons a t ih =>
    cases k with
    | zero => simp at hx
    | succ k' =>
      simp only [List.take_succ_cons] at hx hy ⊢
      cases h with
      | cons₂ _ h' =>
        have hyt : y ∈ t.take k' := by
          rcases List.mem_cons.mp hy with rfl | hyt
          · exact absurd rfl hxy
          · exact hyt
        exact List.Sublist.cons₂ x (List.singleton_sublist.mpr hyt)
      | cons _ h' =>
        have hat : a ∉ t := (List.nodup_cons.mp hnd).1
        have hxt : x ∈ t := h'.subset (List.mem_cons_self _ _)
        have hyt : y ∈ t := h'.subset (by simp)
        have hx' : x ∈ t.take k' := by
          rcases List.mem_cons.mp hx with rfl | hx'
          · exact absurd hxt hat
          · exact hx'
        have hy' : y ∈ t.take k' := by
          rcases List.mem_cons.mp hy with rfl | hy'
          · exact absurd hyt hat
          · exact hy'
        exact List.Sublist.cons a (ih (List.nodup_cons.mp hnd).2 h' hx' hy')

theorem map_id_scoreOf (v : List ℝ) (st : IndexState) :
    (st.map (scoreOf v)).map ScoredEntry.id = st.map Prod.fst := by
  rw [List.map_map]
  rfl

open List in
/-- C2: when two entries of the index (the first inserted earlier than the
second) have equal similarity scores against the query vector and both appear
in the `query` result, the earlier-inserted one appears first: descending-sort
ties are broken by insertion order. -/
theorem query_tie_insertion_order (st : IndexState) (v : List ℝ) (k : ℕ) (t : ℝ)
    (now : String) (rs : List SimilaritySearchResult)
    (ida idb : String) (ea eb : VectorEntry) (s : ℝ)
    (hnd : (st.map Prod.fst).Nodup)
    (hsub : [(ida, ea), (idb, eb)] <+ st)
    (ha : cosineSimilarity v ea.embedding = .ok s)
    (hb : cosineSimilarity v eb.embedding = .ok s)
    (hq : query st v k t now = .ok rs)
    (hma : ida ∈ rs.map SimilaritySearchResult.id)
    (hmb : idb ∈ rs.map SimilaritySearchResult.id) :
    [ida, idb] <+ rs.map SimilaritySearchResult.id := by
  obtain ⟨hall, hrs⟩ := query_ok_inv hq
  subst hrs
  set sl := st.map (scoreOf v) with hsl
  set fl := sl.filter (fun r => decide (t ≤ r.score)) with hflDef
  set srt := List.insertionSort scoreGE fl with hsrtDef
  set tk := srt.take k with htkDef
  -- the two canonical scored entries
  have hmem_a : (ida, ea) ∈ st := hsub.subset (List.mem_cons_self _ _)
  have hmem_b : (idb, eb) ∈ st := hsub.subset (by simp)
  have hlen_a : v.length = ea.embedding.length := (hall _ hmem_a).symm
  have hlen_b : v.length = eb.embedding.length := (hall _ hmem_b).symm
  have hsa : s = cosValue v ea.embedding := by
    rw [cosineSimilarity_eq_ok hlen_a] at ha
    exact ((Except.ok.injEq _ _).mp ha).symm
  have hsb : s = cosValue v eb.embedding := by
    rw [cosineSimilarity_eq_ok hlen_b] at hb
    exact ((Except.ok.injEq _ _).mp hb).symm
  have heq : (scoreOf v (ida, ea)).score = (scoreOf v (idb, eb)).score := by
    simp only [scoreOf]
    rw [← hsa, ← hsb]
  -- Nodup transport
  have hnd_sl_ids : (sl.map ScoredEntry.id).Nodup := by
    rw [hsl, map_id_scoreOf]
    exact hnd
  have hnd_sl : sl.Nodup := List.Nodup.of_map _ hnd_sl_ids
  have hperm : srt.Perm fl := List.perm_insertionSort scoreGE fl
  have hnd_srt : srt.Nodup :=
    hperm.nodup_iff.mpr (List.Nodup.sublist (List.filter_sublist sl) hnd_sl)
  -- the goal and memberships, restated over the scored list
  have hrs_ids : (tk.map (toResult now)).map SimilaritySearchResult.id =
      tk.map ScoredEntry.id := by
    rw [List.map_map]
    rfl
  rw [hrs_ids] at hma hmb ⊢
  -- each returned id determines a unique scored entry
  obtain ⟨xa, hxa_tk, hxa_id⟩ := List.mem_map.mp hma
  obtain ⟨xb, hxb_tk, hxb_id⟩ := List.mem_map.mp hmb
  have hsub_tk_sl : ∀ z ∈ tk, z ∈ sl := by
    intro z hz
    have hz₂ : z ∈ srt := (List.take_sublist k srt).subset hz
    have hz₃ : z ∈ fl := hperm.subset hz₂
    exact (List.filter_sublist sl).subset hz₃
  have hxa_eq : xa = scoreOf v (ida, ea) :=
    List.inj_on_of_nodup_map hnd_sl_ids (hsub_tk_sl xa hxa_tk)
      (List.mem_map_of_mem _ hmem_a) (by simp [scoreOf, hxa_id])
  have hxb_eq : xb = scoreOf v (idb, eb) :=
    List.inj_on_of_nodup_map hnd_sl_ids (hsub_tk_sl xb hxb_tk)
      (List.mem_map_of_mem _ hmem_b) (by simp [scoreOf, hxb_id])
  -- the pair of scored entries is a sublist of the scored list
  have hpair_sl : [scoreOf v (ida, ea), scoreOf v (idb, eb)] <+ sl := by
    have := hsub.map (scoreOf v)
    simpa using this
  -- both pass the threshold filter, so the pair survives filtering
  have hxa_fl : scoreOf v (ida, ea) ∈ fl := by
    have : xa ∈ fl := hperm.subset ((List.take_sublist k srt).subset hxa_tk)
    rwa [hxa_eq] at this
  have hxb_fl : scoreOf v (idb, eb) ∈ fl := by
    have : xb ∈ fl := hperm.subset ((List.take_sublist k srt).subset hxb_tk)
    rwa [hxb_eq] at this
  have hpa : decide (t ≤ (scoreOf v (ida, ea)).score) = true :=
    (List.mem_filter.mp hxa_fl).2
  have hpb : decide (t ≤ (scoreOf v (idb, eb)).score) = true :=
    (List.mem_filter.mp hxb_fl).2
  have hpair_fl : [scoreOf v (ida, ea), scoreOf v (idb, eb)] <+ fl := by
    have h2 := hpair_sl.filter (fun r => decide (t ≤ r.score))
    simpa [List.filter_cons, hpa, hpb] using h2
  -- stable sort keeps the insertion order of the equal-score pair
  have hpair_srt : [scoreOf v (ida, ea), scoreOf v (idb, eb)] <+ srt :=
    pair_sublist_insertionSort _ _ fl hpair_fl heq
  -- ids are distinct, so the pair also survives truncation
  have hne_ids : ida ≠ idb := by
    have hpair_ids : [ida, idb] <+ st.map Prod.fst := by
      have := hsub.map Prod.fst
      simpa using this
    have : ([ida, idb] : List String).Nodup := List.Nodup.sublist hpair_ids hnd
    simpa using (List.nodup_cons.mp this).1
  have hne : scoreOf v (ida, ea) ≠ scoreOf v (idb, eb) := by
    intro hcontra
    exact hne_ids (congrArg ScoredEntry.id hcontra)
  have hpair_tk : [scoreOf v (ida, ea), scoreOf v (idb, eb)] <+ tk :=
    pair_sublist_take hnd_srt hne hpair_srt (hxa_eq ▸ hxa_tk) (hxb_eq ▸ hxb_tk)
  have := hpair_tk.map ScoredEntry.id
  simpa [scoreOf] using this

theorem cosineSimilarity_one_one : cosineSimilarity [(1 : ℝ)] [(1 : ℝ)] = .ok 1 := by
  rw [cosineSimilarity_eq_ok rfl, cosValue_self (by norm_num [sumSq])]

theorem query_pair_tie_eval :
    query [("a", VectorEntry.mk [1] none none none),
           ("b", VectorEntry.mk [1] none none none)] [1] 5 0 "T" =
      .ok [toResult "T" ⟨"a", 1, VectorEntry.mk [1] none none none⟩,
           toResult "T" ⟨"b", 1, VectorEntry.mk [1] none none none⟩] := by
  have hcv : cosValue [(1 : ℝ)] [(1 : ℝ)] = 1 := cosValue_self (by norm_num [sumSq])
  have hs : scoreEntries [(1 : ℝ)]
      [("a", VectorEntry.mk [1] none none none),
       ("b", VectorEntry.mk [1] none none none)] =
      .ok [⟨"a", 1, VectorEntry.mk [1] none none none⟩,
           ⟨"b", 1, VectorEntry.mk [1] none none none⟩] := by
    rw [scoreEntries_eq_map (by simp)]
    simp [scoreOf, hcv]
  unfold query
  rw [hs]
  have hpa : decide ((0 : ℝ) ≤
      (ScoredEntry.mk "a" 1 (VectorEntry.mk [1] none none none)).score) = true :=
    decide_eq_true (by norm_num)
  have hpb : decide ((0 : ℝ) ≤
      (ScoredEntry.mk "b" 1 (VectorEntry.mk [1] none none none)).score) = true :=
    decide_eq_true (by norm_num)
  simp only [List.filter, hpa, hpb, List.insertionSort, List.orderedInsert]
  rw [if_pos (by exact le_refl (1 : ℝ))]
  simp [List.take_cons]

open List in
/-- Witness for C2: two equal-score entries inserted as `"a"` then `"b"` are
returned in that order. -/
theorem query_tie_insertion_order_witness :
    Sublist ["a", "b"]
      (([toResult "T" ⟨"a", 1, VectorEntry.mk [1] none none none⟩,
         toResult "T" ⟨"b", 1, VectorEntry.mk [1] none none none⟩]).map
        SimilaritySearchResult.id) :=
  query_tie_insertion_order
    [("a", VectorEntry.mk [1] none none none),
     ("b", VectorEntry.mk [1] none none none)] [1] 5 0 "T"
    [toResult "T" ⟨"a", 1, VectorEntry.mk [1] none none none⟩,
     toResult "T" ⟨"b", 1, VectorEntry.mk [1] none none none⟩]
    "a" "b" (VectorEntry.mk [1] none none none) (VectorEntry.mk [1] none none none)
    1 (by simp) (List.Sublist.refl _) cosineSimilarity_one_one
    cosineSimilarity_one_one query_pair_tie_eval (by simp [toResult])
    (by simp [toResult])

theorem startSplit {α : Type} {l a b : List α} (h : l <+: a ++ b) :
    l <+: a ∨ ∃ l₂, l = a ++ l₂ ∧ l₂ <+: b := by
  induction a generalizing l with
  | nil => exact Or.inr ⟨l, rfl, h⟩
  | cons x a' ih =>
    cases l with
    | nil => exact Or.inl ⟨x :: a', rfl⟩
    | cons y l' =>
      obtain ⟨t, ht⟩ := h
      simp only [List.cons_append, List.cons.injEq] at ht
      obtain ⟨rfl, ht'⟩ := ht
      rcases ih ⟨t, ht'⟩ with hpre | ⟨l₂, rfl, hl₂⟩
      · obtain ⟨u, hu⟩ := hpre
        exact Or.inl ⟨u, by simp [hu]⟩
      · exact Or.inr ⟨l₂, by simp, hl₂⟩

theorem midSplit {α : Type} {l a b : List α} (h : l <:+: a ++ b) :
    l <:+: a ∨ l <:+: b ∨
      ∃ l₁ l₂, l = l₁ ++ l₂ ∧ l₁ ≠ [] ∧ l₂ ≠ [] ∧ l₁ <:+ a ∧ l₂ <+: b := by
  induction a generalizing l with
  | nil => exact Or.inr (Or.inl h)
  | cons x a' ih =>
    obtain ⟨s, t, hst⟩ := h
    cases s with
    | nil =>
      cases l with
      | nil => exact Or.inl ⟨[], x :: a', by simp⟩
      | cons y l' =>
        simp only [List.nil_append, List.cons_append, List.cons.injEq] at hst
        obtain ⟨rfl, ht'⟩ := hst
        rcases startSplit (⟨t, ht'⟩ : l' <+: a' ++ b) with hpre | ⟨l₂, rfl, hl₂⟩
        · obtain ⟨u, hu⟩ := hpre
          exact Or.inl ⟨[], u, by simp [hu]⟩
        · cases l₂ with
          | nil => exact Or.inl ⟨[], [], by simp⟩
          | cons d l₂' =>
            refine Or.inr (Or.inr ⟨y :: a', d :: l₂', by simp, by simp, by simp,
              ⟨[], rfl⟩, hl₂⟩)
    | cons z s' =>
      simp only [List.cons_append, List.cons.injEq] at hst
      obtain ⟨rfl, ht'⟩ := hst
      rcases ih ⟨s', t, ht'⟩ with ha' | hb | ⟨l₁, l₂, hl, h1, h2, hsuf, hpre⟩
      · obtain ⟨s₀, t₀, h₀⟩ := ha'
        exact Or.inl ⟨z :: s₀, t₀, by simp [h₀]⟩
      · exact Or.inr (Or.inl hb)
      · obtain ⟨u, hu⟩ := hsuf
        exact Or.inr (Or.inr ⟨l₁, l₂, hl, h1, h2, ⟨z :: u, by simp [hu]⟩, hpre⟩)

theorem assemblePrompt_nil_data (q : String) :
    (assemblePrompt q []).data =
      userQuestionLabel.data ++ (q.data ++ groundingInstruction.data) := by
  show (contextText [] ++ userQuestionLabel ++ q ++ groundingInstruction).data = _
  simp [contextText, List.append_assoc]

/-- C7 counterexample: if the query text is itself the string
`"Context from knowledge base"`, the prompt assembled with an empty context
list does contain that marker, so the claim fails for adversarial queries. -/
theorem assemblePrompt_marker_cex :
    contextMarker.data <:+: (assemblePrompt contextMarker []).data := by
  rw [assemblePrompt_nil_data]
  exact ⟨userQuestionLabel.data, groundingInstruction.data, by simp⟩

theorem marker_head : contextMarker.data.head? = some 'C' := rfl

theorem marker_not_in_clean_prompt (q : String)
    (hq : ¬ contextMarker.data <:+: q.data) :
    ¬ contextMarker.data <:+: (assemblePrompt q []).data := by
  intro h
  rw [assemblePrompt_nil_data] at h
  rcases midSplit h with hU | h2 | ⟨l₁, l₂, hl, h1, -, hsuf, -⟩
  · exact absurd hU.length_le (by decide)
  · rcases midSplit h2 with hq' | hP | ⟨l₁, l₂, hl, -, h2ne, -, hpre⟩
    · exact hq hq'
    · have hC : 'C' ∈ groundingInstruction.data :=
        hP.subset (by decide)
      exact absurd hC (by decide)
    · cases l₂ with
      | nil => exact h2ne rfl
      | cons d l₂' =>
        obtain ⟨u, hu⟩ := hpre
        have hd : d = '\n' := by
          have h3 : groundingInstruction.data.head? = some d := by
            rw [← hu]
            rfl
          have h4 : groundingInstruction.data.head? = some '\n' := rfl
          rw [h4] at h3
          exact (Option.some.injEq _ _).mp h3.symm
        have hmem : d ∈ contextMarker.data := by
          rw [hl]
          exact List.mem_append_right l₁ (List.mem_cons_self d l₂')
        rw [hd] at hmem
        exact absurd hmem (by decide)
  · cases l₁ with
    | nil => exact h1 rfl
    | cons d l₁' =>
      have hd : d = 'C' := by
        have h3 : contextMarker.data.head? = some d := by
          rw [hl]
          rfl
        rw [marker_head] at h3
        exact ((Option.some.injEq _ _).mp h3).symm
      obtain ⟨u, hu⟩ := hsuf
      have hmem : d ∈ userQuestionLabel.data := by
        rw [← hu]
        exact List.mem_append_right u (List.mem_cons_self d l₁')
      rw [hd] at hmem
      exact absurd hmem (by decide)

/-- C7 as amended: provided the query text does not itself contain the
`"Context from knowledge base"` marker, the prompt built from an empty context
list is exactly the question followed by the grounding instruction and contains
no marker; and for a non-empty context list the prompt begins with the labeled
context block, holding the snippets in input order separated by blank lines,
followed by the question and the grounding instruction.  `assemblePrompt` is a
pure function, hence deterministic in its inputs. -/
theorem assemblePrompt_structure (q s : String) (ss : List String)
    (hq : ¬ contextMarker.data <:+: q.data) :
    ¬ contextMarker.data <:+: (assemblePrompt q []).data ∧
    assemblePrompt q [] = userQuestionLabel ++ q ++ groundingInstruction ∧
    assemblePrompt q (s :: ss) =
      "Context from knowledge base:\n" ++ String.intercalate "\n\n" (s :: ss) ++
        "\n\n" ++ (userQuestionLabel ++ q ++ groundingInstruction) := by
  refine ⟨marker_not_in_clean_prompt q hq, rfl, ?_⟩
  show contextText (s :: ss) ++ userQuestionLabel ++ q ++ groundingInstruction = _
  rw [contextText, if_pos (by simp)]
  simp [String.append_assoc]

/-- Witness for the amended C7 with query `"q"` and snippets `["A", "B"]`. -/
theorem assemblePrompt_structure_witness :
    ¬ contextMarker.data <:+: (assemblePrompt "q" []).data ∧
    assemblePrompt "q" [] = userQuestionLabel ++ "q" ++ groundingInstruction ∧
    assemblePrompt "q" ("A" :: ["B"]) =
      "Context from knowledge base:\n" ++ String.intercalate "\n\n" ("A" :: ["B"]) ++
        "\n\n" ++ (userQuestionLabel ++ "q" ++ groundingInstruction) :=
  assemblePrompt_structure "q" "A" ["B"] (by decide)

end ChatPineWriter
